import Mathlib

/-!
Verification development for the bdns_etl repository.

The definitions below are shallow embeddings of the repository's source:
the paginated extractor loops of `seeding/ayudas_estado/extract_ayudas_estado.py`
(`src/unnamed/part_002`) and `seeding/partidos_politicos/extract_partidos_politicos.py`
(`src/unnamed/part_003`), the CSV extractor `seeding/concesiones/extract/extract_concesiones.py.bak`,
and — where the deciding code is not included in the source tree — models built
from the written specification (dedup/load engine, catalog freshness validator,
catalog sync, execution tracker), each marked `Modelled from the spec:` in its
doc comment.
-/

/-- One page of a paginated BDNS API answer: the `content` list of records and
the optional `totalElements` field (`data.get("totalElements", 0)` in the source
defaults a missing key to 0). -/
structure PageResponse (α : Type) where
  content : List α
  totalElements : Option Nat
deriving DecidableEq, Repr

/-- Outcome of one extractor run: a normal return with the accumulated record
list, or a raised exception (which carries no records). -/
inductive ExtractResult (α : Type) where
  | ok : List α → ExtractResult α
  | err : ExtractResult α
deriving DecidableEq, Repr

/-- The `while True` loop shared verbatim by `extract_ayudas_by_year` and
`extract_partidos_by_year`.  The external API is modelled as a finite list of
per-page request outcomes (`none` = `requests.exceptions.RequestException`,
`some r` = a JSON page); a request past the end of the list returns an empty
page, which is how a finite upstream data set answers.  Besides the result, the
trace of requested page indices is returned.  Mirroring the source:
an empty `content` breaks the loop; otherwise records are extended and the loop
breaks when `len(all_records) >= total_elements`; a request exception raises if
`page == 0` and otherwise breaks, returning the accumulated records. -/
def extractGo {α : Type} (page : Nat) (acc : List α) :
    List (Option (PageResponse α)) → ExtractResult α × List Nat
  | [] => (ExtractResult.ok acc, [page])
  | none :: _ =>
      if page = 0 then (ExtractResult.err, [page]) else (ExtractResult.ok acc, [page])
  | some r :: rest =>
      if r.content.isEmpty then (ExtractResult.ok acc, [page])
      else
        let acc2 := acc ++ r.content
        if r.totalElements.getD 0 ≤ acc2.length then (ExtractResult.ok acc2, [page])
        else
          let next := extractGo (page + 1) acc2 rest
          (next.1, page :: next.2)

/-- `AyudasEstadoExtractor.extract_ayudas_by_year` of
`seeding/ayudas_estado/extract_ayudas_estado.py`: pagination starts at page 0
with an empty accumulator.  `page_size` (default 5000 in the source) only
shapes the HTTP request parameters, which the response-sequence model
abstracts. -/
def extract_ayudas_by_year {α : Type} (_page_size : Nat)
    (resps : List (Option (PageResponse α))) : ExtractResult α × List Nat :=
  extractGo 0 [] resps

/-- `PartidosPoliticosExtractor.extract_partidos_by_year` of
`seeding/partidos_politicos/extract_partidos_politicos.py`: the loop body is
the same as the ayudas-de-estado extractor (default `page_size` 10000). -/
def extract_partidos_by_year {α : Type} (_page_size : Nat)
    (resps : List (Option (PageResponse α))) : ExtractResult α × List Nat :=
  extractGo 0 [] resps

/-- The page loop of `main` in
`seeding/concesiones/extract/extract_concesiones.py.bak`: every row of the
current page is written, and the loop breaks exactly when the page's batch is
shorter than `PAGE_SIZE`; there is no `totalElements` check and no exception
handler.  A request past the finite upstream returns an empty page
(`0 < PAGE_SIZE` then breaks). -/
def concesionesGo {α : Type} (page_size : Nat) (acc : List α) :
    List (List α) → List α
  | [] => acc
  | c :: rest =>
      let acc2 := acc ++ c
      if c.length < page_size then acc2 else concesionesGo page_size acc2 rest

/-- Top level of the concesiones CSV extractor (`PAGE_SIZE = 10000` in the
source, kept as a parameter). -/
def extract_concesiones_main {α : Type} (page_size : Nat)
    (pages : List (List α)) : List α :=
  concesionesGo page_size [] pages

/-- The stopping rule of the ayudas/partidos loop stated the specification's
way, restricted to failure-free response sequences: accumulate page contents
until a page is empty or the running count reaches that page's reported
`totalElements` (a missing total counts as 0). -/
def specAccum {α : Type} (acc : List α) : List (PageResponse α) → List α
  | [] => acc
  | r :: rest =>
      if r.content.isEmpty then acc
      else if r.totalElements.getD 0 ≤ acc.length + r.content.length then acc ++ r.content
      else specAccum (acc ++ r.content) rest

/-- Number of page requests the failure-free loop issues (each iteration is one
request; the final breaking iteration is counted). -/
def specSteps {α : Type} (count : Nat) : List (PageResponse α) → Nat
  | [] => 1
  | r :: rest =>
      if r.content.isEmpty then 1
      else if r.totalElements.getD 0 ≤ count + r.content.length then 1
      else 1 + specSteps (count + r.content.length) rest

/-- A response sequence on which the loop never stops by itself: every page is
non-empty and the running count stays strictly below the reported total. -/
def continuesAll {α : Type} (count : Nat) : List (PageResponse α) → Bool
  | [] => true
  | r :: rest =>
      !r.content.isEmpty &&
        decide (count + r.content.length < r.totalElements.getD 0) &&
        continuesAll (count + r.content.length) rest

/-- `extract_all_years` of the ayudas-de-estado extractor, specialised loop:
for each year of `range(year_from, year_to + 1)` the per-year extraction runs
inside `try`; a raised exception is caught and the loop continues, and a year
whose data is empty is not saved (`if data: save_to_json`).  The result is the
list of `(year, data)` files written.  The upstream is a function from year to
that year's page-response sequence; the per-year call uses the extractor's
default page size, 5000. -/
def extract_all_years_go {α : Type} (api : Nat → List (Option (PageResponse α))) :
    List Nat → List (Nat × List α)
  | [] => []
  | y :: ys =>
      match (extract_ayudas_by_year 5000 (api y)).1 with
      | ExtractResult.err => extract_all_years_go api ys
      | ExtractResult.ok data =>
          if data.isEmpty then extract_all_years_go api ys
          else (y, data) :: extract_all_years_go api ys

/-- `AyudasEstadoExtractor.extract_all_years(year_from, year_to)`: iterates the
inclusive year range in increasing order (`range(year_from, year_to + 1)`). -/
def extract_all_years {α : Type} (api : Nat → List (Option (PageResponse α)))
    (year_from year_to : Nat) : List (Nat × List α) :=
  extract_all_years_go api (List.range' year_from (year_to + 1 - year_from))

/-- Concrete input refuting the short-page stopping rule: the first page holds
3 records (fewer than the requested page size of 5) while `totalElements` is
10, and a full second page follows. -/
def c3pages : List (Option (PageResponse Nat)) :=
  [some { content := [1, 2, 3], totalElements := some 10 },
   some { content := [4, 5, 6, 7, 8, 9, 10], totalElements := some 10 }]

/-- Calendar date as stored in `fecha_concesion` / `finished_at` columns. -/
structure Date where
  year : Nat
  month : Nat
  day : Nat
deriving DecidableEq, Repr

/-- The `regimen_tipo` enumeration distinguishing the sources feeding the
`concesion` table (partition names in the README plus the remaining tags of
the specification's fixed enumeration). -/
inductive Regimen where
  | ordinaria
  | minimis
  | ayuda_estado
  | partidos_politicos
  | gran_beneficiario
  | desconocida
deriving DecidableEq, Repr

/-- A canonical `concesion` row (the columns relevant to deduplication plus a
payload sample). -/
structure Concesion where
  id_concesion : String
  fecha_concesion : Date
  regimen_tipo : Regimen
  importe : Int
  beneficiario : String
deriving DecidableEq, Repr

/-- The dedup key of the `uq_concesion_id_fecha` constraint:
`UNIQUE (id_concesion, fecha_concesion, regimen_tipo)`. -/
def dedupKey (c : Concesion) : String × Date × Regimen :=
  (c.id_concesion, c.fecha_concesion, c.regimen_tipo)

/-- The table never holds two rows with the same dedup triple. -/
def NoDupKeys (t : List Concesion) : Prop :=
  (t.map dedupKey).Nodup

/-- Modelled from the spec: the load scripts
(`seeding/concesiones/load/load_concesiones.py` and the snippet in
`README_ORQUESTACION.md`) are not under src/; per the spec and README the row
insert is `INSERT ... ON CONFLICT DO NOTHING` on the `uq_concesion_id_fecha`
constraint — a row whose dedup triple is already present is skipped, otherwise
it is appended. -/
def insert_on_conflict_do_nothing (t : List Concesion) (c : Concesion) :
    List Concesion :=
  if t.any (fun r => decide (dedupKey r = dedupKey c)) then t else t ++ [c]

/-- Modelled from the spec: `loadBatch(rawRecords, regimeTag)` of §4.4 — each
record is tagged with the caller-supplied regime and bulk-inserted with
insert-ignore-on-conflict semantics, in batch order. -/
def loadBatch (t : List Concesion) (batch : List Concesion) (tag : Regimen) :
    List Concesion :=
  batch.foldl
    (fun acc c => insert_on_conflict_do_nothing acc { c with regimen_tipo := tag }) t

/-- The stored table after a sequence of `loadBatch` calls starting from an
empty store. -/
def loadAll (calls : List (List Concesion × Regimen)) : List Concesion :=
  calls.foldl (fun t bc => loadBatch t bc.1 bc.2) []

/-- Modelled from the spec: `catalogos_obsoletos_para_ejercicio(session, year)`
of `sync/catalog_sync_validator.py` is not under src/ (only the README
documents it).  Per the spec: obsolete when no successful catalog-sync
execution exists, or when the year of the most recent successful one's
completion timestamp is strictly below the target year. -/
def catalogos_obsoletos_para_ejercicio (ultima_sync : Option Date) (year : Nat) :
    Bool :=
  match ultima_sync with
  | none => true
  | some d => decide (d.year < year)

/-- Terminal and non-terminal statuses of an `etl_execution` row. -/
inductive ExecStatus where
  | pending
  | running
  | completed
  | failed
  | cancelled
  | interrupted
  | replaced
deriving DecidableEq, Repr

/-- Modelled from the spec: `validar_y_sincronizar_catalogos(session, year)` of
`sync/catalog_sync_validator.py` is not under src/.  If the catalogs are
obsolete it runs the catalog sync, whose outcome (`syncResult`) either yields a
new last-sync timestamp or an error that propagates; when the catalogs are
fresh nothing happens. -/
def validar_y_sincronizar_catalogos (ultima_sync : Option Date) (year : Nat)
    (syncResult : Except String (Option Date)) : Except String (Option Date) :=
  if catalogos_obsoletos_para_ejercicio ultima_sync year then syncResult
  else Except.ok ultima_sync

/-- Modelled from the spec: the `seed_ejercicio` flow shown in the README —
step 1 validates/syncs catalogs, and only afterwards are the transactional
batches loaded; a validation failure propagates before any load starts, and
the execution is marked failed with the table untouched. -/
def seed_ejercicio (ultima_sync : Option Date) (year : Nat)
    (syncResult : Except String (Option Date))
    (batches : List (List Concesion × Regimen)) (table : List Concesion) :
    List Concesion × ExecStatus :=
  match validar_y_sincronizar_catalogos ultima_sync year syncResult with
  | Except.error _ => (table, ExecStatus.failed)
  | Except.ok _ =>
      (batches.foldl (fun t bc => loadBatch t bc.1 bc.2) table, ExecStatus.completed)

/-- A catalog (reference/lookup) row: natural code plus description. -/
structure CatalogRow where
  code : String
  description : String
deriving DecidableEq, Repr

/-- Modelled from the spec: the per-row upsert of `sync/sync_catalogos.py`
(not under src/) — insert-if-absent keyed by the table's natural code; returns
the table and the number of new rows (0 or 1). -/
def upsert_if_absent (t : List CatalogRow) (row : CatalogRow) :
    List CatalogRow × Nat :=
  if t.any (fun r => decide (r.code = row.code)) then (t, 0) else (t ++ [row], 1)

/-- Modelled from the spec: syncing one catalog table against the full upstream
set — each upstream row is upserted in order, new-row counts are summed. -/
def sync_table (t : List CatalogRow) : List CatalogRow → List CatalogRow × Nat
  | [] => (t, 0)
  | r :: rest =>
      let p := upsert_if_absent t r
      let q := sync_table p.1 rest
      (q.1, p.2 + q.2)

/-- Modelled from the spec: `sync_catalogos(session)` over the fixed list of
reference tables — each stored table is synced against its upstream set and
the aggregate new-row count is reported. -/
def sync_catalogos :
    List (List CatalogRow) → List (List CatalogRow) → List (List CatalogRow) × Nat
  | t :: ts, u :: us =>
      let p := sync_table t u
      let q := sync_catalogos ts us
      (p.1 :: q.1, p.2 + q.2)
  | ts, _ => (ts, 0)

/-- The progress-relevant part of an `etl_execution` row (columns `status` and
`progress_percentage` of migration 002). -/
structure Execution where
  status : ExecStatus
  progress_percentage : Nat
deriving DecidableEq, Repr

/-- Operations mutating one execution row. -/
inductive Mutation where
  | start
  | progress (p : Nat)
  | complete
  | fail
  | cancel
deriving DecidableEq, Repr

/-- Modelled from the spec: the execution tracker's mutation discipline (its
code is not under src/; only the `progress_percentage` column of migration
`002_add_execution_progress_fields.sql` is).  Per §4.5: every mutation
advances `progress_percentage` monotonically while `running`, and it is pinned
at 100 only on `completed` — so a progress update while running takes the
maximum with the current value and stays below 100, and completion sets 100. -/
def applyMutation (e : Execution) (m : Mutation) : Execution :=
  match m with
  | Mutation.start =>
      if e.status = ExecStatus.pending then { e with status := ExecStatus.running } else e
  | Mutation.progress p =>
      if e.status = ExecStatus.running then
        { e with progress_percentage := max e.progress_percentage (min p 99) }
      else e
  | Mutation.complete =>
      if e.status = ExecStatus.running then
        { status := ExecStatus.completed, progress_percentage := 100 }
      else e
  | Mutation.fail =>
      if e.status = ExecStatus.running then { e with status := ExecStatus.failed } else e
  | Mutation.cancel =>
      if e.status = ExecStatus.running then { e with status := ExecStatus.cancelled } else e

/-- Folding a mutation sequence over an execution row. -/
def applyMutations (e : Execution) (ms : List Mutation) : Execution :=
  ms.foldl applyMutation e

/-- Execution states reachable from the freshly created row
(`pending`, progress 0). -/
def reachable (ms : List Mutation) : Execution :=
  applyMutations { status := ExecStatus.pending, progress_percentage := 0 } ms

/-- Invariant tying progress 100 to completion. -/
def ProgressInv (e : Execution) : Prop :=
  (e.status = ExecStatus.completed → e.progress_percentage = 100) ∧
  (e.status ≠ ExecStatus.completed → e.progress_percentage ≤ 99)

/-- A catalog table contains a row with the given natural code. -/
def hasCode (t : List CatalogRow) (c : String) : Bool :=
  t.any (fun r => decide (r.code = c))

theorem extractGo_map_some {α : Type} (resps : List (PageResponse α)) :
    ∀ (page : Nat) (acc : List α),
      extractGo page acc (resps.map some) =
        (ExtractResult.ok (specAccum acc resps),
         List.range' page (specSteps acc.length resps)) := by
  induction resps with
  | nil =>
      intro page acc
      simp [extractGo, specAccum, specSteps, List.range']
  | cons r rest ih =>
      intro page acc
      by_cases hc : r.content.isEmpty
      · simp [extractGo, specAccum, specSteps, hc, List.range']
      · by_cases ht : r.totalElements.getD 0 ≤ acc.length + r.content.length
        · have ht2 : r.totalElements.getD 0 ≤ (acc ++ r.content).length := by
            simpa [List.length_append] using ht
          simp [extractGo, specAccum, specSteps, hc, ht, ht2, List.range']
        · have ht2 : ¬ r.totalElements.getD 0 ≤ (acc ++ r.content).length := by
            simpa [List.length_append] using ht
          have ihx := ih (page + 1) (acc ++ r.content)
          simp only [List.length_append] at ihx
          simp [extractGo, specAccum, specSteps, hc, ht, ht2, ihx, List.range'_succ,
            Nat.add_comm 1]

theorem extractGo_trace {α : Type} (resps : List (Option (PageResponse α))) :
    ∀ (page : Nat) (acc : List α),
      (extractGo page acc resps).2.Pairwise (· < ·) ∧
      ∀ x ∈ (extractGo page acc resps).2, page ≤ x := by
  induction resps with
  | nil =>
      intro page acc
      simp [extractGo]
  | cons o rest ih =>
      intro page acc
      cases o with
      | none =>
          by_cases hp : page = 0 <;> simp [extractGo, hp]
      | some r =>
          by_cases hc : r.content.isEmpty
          · simp [extractGo, hc]
          · by_cases ht : r.totalElements.getD 0 ≤ acc.length + r.content.length
            · simp [extractGo, hc, ht, List.length_append]
            · have heq : extractGo page acc (some r :: rest) =
                  ((extractGo (page + 1) (acc ++ r.content) rest).1,
                   page :: (extractGo (page + 1) (acc ++ r.content) rest).2) := by
                simp [extractGo, hc, ht, List.length_append]
              obtain ⟨h1, h2⟩ := ih (page + 1) (acc ++ r.content)
              rw [heq]
              refine ⟨List.pairwise_cons.2 ⟨fun x hx => ?_, h1⟩, ?_⟩
              · exact Nat.lt_of_succ_le (h2 x hx)
              · intro x hx
                rcases List.mem_cons.1 hx with h | h
                · exact h ▸ Nat.le_refl page
                · exact Nat.le_trans (Nat.le_succ page) (h2 x h)

theorem extractGo_fail_after {α : Type} (good : List (PageResponse α)) :
    ∀ (page : Nat) (acc : List α) (rest : List (Option (PageResponse α))),
      continuesAll acc.length good = true → 0 < page + good.length →
      extractGo page acc (good.map some ++ none :: rest) =
        (ExtractResult.ok (acc ++ (good.map PageResponse.content).flatten),
         List.range' page (good.length + 1)) := by
  induction good with
  | nil =>
      intro page acc rest _ hp
      simp only [List.length_nil] at hp
      have hp0 : page ≠ 0 := by omega
      simp [extractGo, hp0, List.range']
  | cons g gs ih =>
      intro page acc rest hcont hp
      simp only [continuesAll, Bool.and_eq_true, Bool.not_eq_true',
        decide_eq_true_eq] at hcont
      obtain ⟨⟨hne, hlt⟩, hrest⟩ := hcont
      have ht : ¬ g.totalElements.getD 0 ≤ acc.length + g.content.length := by omega
      have ihx := ih (page + 1) (acc ++ g.content) rest
        (by simpa [List.length_append] using hrest) (by omega)
      simp [extractGo, hne, ht, hlt, ihx, List.range'_succ, List.append_assoc,
        List.length_append]

theorem specAccum_eq_prefix {α : Type} (resps : List (PageResponse α)) :
    ∀ acc : List α, ∃ k, k ≤ resps.length ∧
      specAccum acc resps = acc ++ ((resps.take k).map PageResponse.content).flatten := by
  induction resps with
  | nil =>
      intro acc
      exact ⟨0, Nat.le_refl 0, by simp [specAccum]⟩
  | cons r rest ih =>
      intro acc
      by_cases hc : r.content.isEmpty
      · exact ⟨0, by simp, by simp [specAccum, hc]⟩
      · by_cases ht : r.totalElements.getD 0 ≤ acc.length + r.content.length
        · exact ⟨1, by simp, by simp [specAccum, hc, ht]⟩
        · obtain ⟨k, hk, he⟩ := ih (acc ++ r.content)
          exact ⟨k + 1, by simpa using Nat.succ_le_succ hk,
            by simp [specAccum, hc, ht, he, List.append_assoc]⟩

theorem concesionesGo_eq_prefix {α : Type} (page_size : Nat) (pages : List (List α)) :
    ∀ acc : List α, ∃ k, k ≤ pages.length ∧
      concesionesGo page_size acc pages = acc ++ (pages.take k).flatten := by
  induction pages with
  | nil =>
      intro acc
      exact ⟨0, Nat.le_refl 0, by simp [concesionesGo]⟩
  | cons c rest ih =>
      intro acc
      by_cases hlt : c.length < page_size
      · exact ⟨1, by simp, by simp [concesionesGo, hlt]⟩
      · obtain ⟨k, hk, he⟩ := ih (acc ++ c)
        exact ⟨k + 1, by simpa using Nat.succ_le_succ hk,
          by simp [concesionesGo, hlt, he, List.append_assoc]⟩

/-- Claim C3 counterexample: with a requested page size of 5, the first page of
`c3pages` returns only 3 records (fewer than the page size) while
`totalElements` is 10.  The claim predicts the extractor stops at that short
page, returning only `[1, 2, 3]` after one request; the source instead keeps
requesting (trace `[0, 1]`) until the cumulative count reaches the total and
returns all 10 records — the short-page condition is never checked. -/
theorem c3_counterexample :
    extract_ayudas_by_year 5 c3pages =
      (ExtractResult.ok [1, 2, 3, 4, 5, 6, 7, 8, 9, 10], [0, 1]) ∧
    ¬ extract_ayudas_by_year 5 c3pages = (ExtractResult.ok [1, 2, 3], [0]) := by
  decide

/-- Claim C3 (amended): the per-year extractors request pages in increasing
index order from page 0 and stop exactly when a returned page is empty or the
cumulative record count reaches that page's reported `totalElements` (the
short-page condition plays no role); the result is the concatenation of a
prefix of the pages' contents.  The concesiones CSV extractor instead stops on
a short page, its result again a concatenation of the fetched pages. -/
theorem c3_pagination_amended {α : Type} (page_size : Nat)
    (resps : List (PageResponse α)) (pages : List (List α)) :
    (extract_ayudas_by_year page_size (resps.map some) =
       (ExtractResult.ok (specAccum [] resps), List.range' 0 (specSteps 0 resps)) ∧
     extract_partidos_by_year page_size (resps.map some) =
       (ExtractResult.ok (specAccum [] resps), List.range' 0 (specSteps 0 resps))) ∧
    (∃ k, k ≤ resps.length ∧
       specAccum [] resps = ((resps.take k).map PageResponse.content).flatten) ∧
    (∃ k, k ≤ pages.length ∧
       extract_concesiones_main page_size pages = (pages.take k).flatten) := by
  have hmain := extractGo_map_some resps 0 []
  refine ⟨⟨?_, ?_⟩, ?_, ?_⟩
  · simpa [extract_ayudas_by_year] using hmain
  · simpa [extract_partidos_by_year] using hmain
  · obtain ⟨k, hk, he⟩ := specAccum_eq_prefix resps []
    exact ⟨k, hk, by simpa using he⟩
  · obtain ⟨k, hk, he⟩ := concesionesGo_eq_prefix page_size pages []
    exact ⟨k, hk, by simpa [extract_concesiones_main] using he⟩

/-- Claim C4 counterexample: a request failure on page 0 makes the extractor
raise immediately after a single attempt — the request trace is `[0]`, so no
page was ever requested twice, contradicting the claimed
retry-with-exponential-backoff before escalation. -/
theorem c4_counterexample :
    extract_ayudas_by_year 5000 ([none] : List (Option (PageResponse Nat))) =
      (ExtractResult.err, [0]) := by
  decide

/-- Claim C4 (amended): the extractors never retry a page request — the trace
of requested page indices is strictly increasing, so each page is requested at
most once; a failure on the first page escalates to the caller after that
single attempt. -/
theorem c4_no_retry_amended {α : Type} (page_size : Nat)
    (resps : List (Option (PageResponse α))) :
    (extract_ayudas_by_year page_size resps).2.Pairwise (· < ·) ∧
    (extract_partidos_by_year page_size resps).2.Pairwise (· < ·) ∧
    ∀ rest : List (Option (PageResponse α)),
      extract_ayudas_by_year page_size (none :: rest) = (ExtractResult.err, [0]) := by
  refine ⟨(extractGo_trace resps 0 []).1, (extractGo_trace resps 0 []).1, ?_⟩
  intro rest
  simp [extract_ayudas_by_year, extractGo]

/-- Claim C5: a request failure on the very first page raises, yielding no
partial result, in both per-year extractors; a failure on any later page (after
a non-empty run of pages that keep the loop going) ends the stream and returns
exactly the records accumulated from the earlier pages. -/
theorem c5_first_page_fatal_later_pages_preserved {α : Type} (page_size : Nat)
    (good : List (PageResponse α)) (rest : List (Option (PageResponse α)))
    (hg : good ≠ []) (hcont : continuesAll 0 good = true) :
    extract_ayudas_by_year page_size (none :: rest) = (ExtractResult.err, [0]) ∧
    extract_partidos_by_year page_size (none :: rest) = (ExtractResult.err, [0]) ∧
    extract_ayudas_by_year page_size (good.map some ++ none :: rest) =
      (ExtractResult.ok ((good.map PageResponse.content).flatten),
       List.range' 0 (good.length + 1)) ∧
    extract_partidos_by_year page_size (good.map some ++ none :: rest) =
      (ExtractResult.ok ((good.map PageResponse.content).flatten),
       List.range' 0 (good.length + 1)) := by
  have h1 : extractGo (α := α) 0 [] (none :: rest) = (ExtractResult.err, [0]) := by
    simp [extractGo]
  have hlen : 0 < 0 + good.length := by
    cases good with
    | nil => exact absurd rfl hg
    | cons _ _ => simp
  have h2 := extractGo_fail_after good 0 [] rest (by simpa using hcont) hlen
  simp only [List.nil_append] at h2
  exact ⟨h1, h1, h2, h2⟩

/-- Claim C5 witness: one good page of two records (total 5 still ahead), then
a failing request on page 1: the two records are preserved; the same failure on
page 0 raises with nothing. -/
theorem c5_witness :
    extract_ayudas_by_year 5000 ([none] : List (Option (PageResponse Nat))) =
      (ExtractResult.err, [0]) ∧
    extract_partidos_by_year 5000 ([none] : List (Option (PageResponse Nat))) =
      (ExtractResult.err, [0]) ∧
    extract_ayudas_by_year 5000
      ([{ content := [1, 2], totalElements := some 5 }].map some ++
        [(none : Option (PageResponse Nat))]) =
      (ExtractResult.ok [1, 2], List.range' 0 2) ∧
    extract_partidos_by_year 5000
      ([{ content := [1, 2], totalElements := some 5 }].map some ++
        [(none : Option (PageResponse Nat))]) =
      (ExtractResult.ok [1, 2], List.range' 0 2) := by
  have h := c5_first_page_fatal_later_pages_preserved 5000
    [{ content := [1, 2], totalElements := some 5 }] [(none : Option (PageResponse Nat))]
    (by decide) (by decide)
  simpa using h

/-- Claim C9: when the first page has non-empty content but no `totalElements`
key, the missing total defaults to 0, the cumulative-count check is immediately
satisfied, and both per-year extractors return exactly the first page's records
after that single request. -/
theorem c9_missing_total_first_page {α : Type} (page_size : Nat)
    (r : PageResponse α) (rest : List (Option (PageResponse α)))
    (h1 : r.content ≠ []) (h2 : r.totalElements = none) :
    extract_ayudas_by_year page_size (some r :: rest) =
      (ExtractResult.ok r.content, [0]) ∧
    extract_partidos_by_year page_size (some r :: rest) =
      (ExtractResult.ok r.content, [0]) := by
  have hne : ¬ r.content.isEmpty := by
    simpa [List.isEmpty_iff] using h1
  have key : extractGo 0 [] (some r :: rest) = (ExtractResult.ok r.content, [0]) := by
    simp [extractGo, hne, h2]
  exact ⟨key, key⟩

/-- Claim C9 witness: a single page `{content: [7], no totalElements}` followed
by a page that would contribute more records if it were requested. -/
theorem c9_witness :
    extract_ayudas_by_year 5000
      [some ({ content := [7], totalElements := none } : PageResponse Nat),
       some { content := [8], totalElements := none }] =
      (ExtractResult.ok [7], [0]) ∧
    extract_partidos_by_year 5000
      [some ({ content := [7], totalElements := none } : PageResponse Nat),
       some { content := [8], totalElements := none }] =
      (ExtractResult.ok [7], [0]) :=
  c9_missing_total_first_page 5000 { content := [7], totalElements := none }
    [some { content := [8], totalElements := none }] (by decide) rfl

theorem pairwise_lt_range1 (n : Nat) : ∀ s : Nat, (List.range' s n).Pairwise (· < ·) := by
  induction n with
  | zero =>
      intro s
      simp [List.range']
  | succ m ih =>
      intro s
      rw [List.range'_succ s m 1]
      refine List.pairwise_cons.2 ⟨fun x hx => ?_, ih (s + 1)⟩
      have := (List.mem_range'_1.1 hx).1
      omega

theorem extract_all_years_go_cons_err {α : Type}
    (api : Nat → List (Option (PageResponse α))) (z : Nat) (zs : List Nat)
    (hz : (extract_ayudas_by_year 5000 (api z)).1 = ExtractResult.err) :
    extract_all_years_go api (z :: zs) = extract_all_years_go api zs := by
  simp [extract_all_years_go, hz]

theorem extract_all_years_go_cons_empty {α : Type}
    (api : Nat → List (Option (PageResponse α))) (z : Nat) (zs : List Nat)
    (data : List α) (hz : (extract_ayudas_by_year 5000 (api z)).1 = ExtractResult.ok data)
    (hdata : data.isEmpty) :
    extract_all_years_go api (z :: zs) = extract_all_years_go api zs := by
  simp [extract_all_years_go, hz, hdata]

theorem extract_all_years_go_cons_ok {α : Type}
    (api : Nat → List (Option (PageResponse α))) (z : Nat) (zs : List Nat)
    (data : List α) (hz : (extract_ayudas_by_year 5000 (api z)).1 = ExtractResult.ok data)
    (hdata : ¬ data.isEmpty) :
    extract_all_years_go api (z :: zs) = (z, data) :: extract_all_years_go api zs := by
  simp [extract_all_years_go, hz, hdata]

theorem extract_all_years_go_mem {α : Type}
    (api : Nat → List (Option (PageResponse α))) :
    ∀ (ys : List Nat) (y : Nat) (d : List α),
      (y, d) ∈ extract_all_years_go api ys ↔
        (y ∈ ys ∧ (extract_ayudas_by_year 5000 (api y)).1 = ExtractResult.ok d ∧
         d ≠ []) := by
  intro ys
  induction ys with
  | nil =>
      intro y d
      simp [extract_all_years_go]
  | cons z zs ih =>
      intro y d
      cases hz : (extract_ayudas_by_year 5000 (api z)).1 with
      | err =>
          rw [extract_all_years_go_cons_err api z zs hz, ih y d]
          constructor
          · rintro ⟨hy, hok, hd⟩
            exact ⟨List.mem_cons_of_mem z hy, hok, hd⟩
          · rintro ⟨hy, hok, hd⟩
            rcases List.mem_cons.1 hy with rfl | hy'
            · rw [hz] at hok
              exact ExtractResult.noConfusion hok
            · exact ⟨hy', hok, hd⟩
      | ok data =>
          by_cases hdata : data.isEmpty
          · have hdata' : data = [] := by simpa [List.isEmpty_iff] using hdata
            rw [extract_all_years_go_cons_empty api z zs data hz hdata, ih y d]
            constructor
            · rintro ⟨hy, hok, hd⟩
              exact ⟨List.mem_cons_of_mem z hy, hok, hd⟩
            · rintro ⟨hy, hok, hd⟩
              rcases List.mem_cons.1 hy with rfl | hy'
              · rw [hz] at hok
                cases hok
                exact absurd hdata' hd
              · exact ⟨hy', hok, hd⟩
          · have hdata' : data ≠ [] := by simpa [List.isEmpty_iff] using hdata
            rw [extract_all_years_go_cons_ok api z zs data hz hdata, List.mem_cons,
              ih y d, Prod.mk.injEq]
            constructor
            · rintro (⟨rfl, rfl⟩ | ⟨hy, hok, hd⟩)
              · exact ⟨List.mem_cons_self _ _, hz, hdata'⟩
              · exact ⟨List.mem_cons_of_mem z hy, hok, hd⟩
            · rintro ⟨hy, hok, hd⟩
              rcases List.mem_cons.1 hy with rfl | hy'
              · rw [hz] at hok
                cases hok
                exact Or.inl ⟨rfl, rfl⟩
              · exact Or.inr ⟨hy', hok, hd⟩

theorem extract_all_years_go_sublist {α : Type}
    (api : Nat → List (Option (PageResponse α))) :
    ∀ ys : List Nat, ((extract_all_years_go api ys).map Prod.fst).Sublist ys := by
  intro ys
  induction ys with
  | nil =>
      simp [extract_all_years_go]
  | cons z zs ih =>
      cases hz : (extract_ayudas_by_year 5000 (api z)).1 with
      | err =>
          rw [extract_all_years_go_cons_err api z zs hz]
          exact ih.trans (List.sublist_cons_self z zs)
      | ok data =>
          by_cases hdata : data.isEmpty
          · rw [extract_all_years_go_cons_empty api z zs data hz hdata]
            exact ih.trans (List.sublist_cons_self z zs)
          · rw [extract_all_years_go_cons_ok api z zs data hz hdata, List.map_cons]
            exact List.Sublist.cons₂ z ih

/-- Claim C10: `extract_all_years(year_from, year_to)` attempts every year of
the inclusive range in increasing order and isolates failures per year: a file
`(y, d)` is produced exactly when `y` lies in the range and that year's own
extraction returns a non-empty record list — an exception or an empty result in
one year never affects any other year — and the produced years are strictly
increasing. -/
theorem c10_extract_all_years_isolated {α : Type}
    (api : Nat → List (Option (PageResponse α))) (year_from year_to : Nat) :
    (∀ (y : Nat) (d : List α),
       (y, d) ∈ extract_all_years api year_from year_to ↔
         (year_from ≤ y ∧ y ≤ year_to ∧
          (extract_ayudas_by_year 5000 (api y)).1 = ExtractResult.ok d ∧
          d ≠ [])) ∧
    ((extract_all_years api year_from year_to).map Prod.fst).Pairwise (· < ·) := by
  constructor
  · intro y d
    rw [extract_all_years, extract_all_years_go_mem api _ y d, List.mem_range'_1]
    constructor
    · rintro ⟨⟨h1, h2⟩, h3, h4⟩
      exact ⟨h1, by omega, h3, h4⟩
    · rintro ⟨h1, h2, h3, h4⟩
      exact ⟨⟨h1, by omega⟩, h3, h4⟩
  · exact List.Pairwise.sublist
      (extract_all_years_go_sublist api (List.range' year_from (year_to + 1 - year_from)))
      (pairwise_lt_range1 (year_to + 1 - year_from) year_from)

theorem insert_preserves_nodup (t : List Concesion) (c : Concesion)
    (h : NoDupKeys t) : NoDupKeys (insert_on_conflict_do_nothing t c) := by
  unfold insert_on_conflict_do_nothing
  by_cases hc : t.any (fun r => decide (dedupKey r = dedupKey c))
  · simpa [hc]
  · have hall : dedupKey c ∉ t.map dedupKey := by
      intro hmem
      obtain ⟨r, hr, he⟩ := List.mem_map.1 hmem
      exact hc (List.any_eq_true.2 ⟨r, hr, by simp [he]⟩)
    rw [if_neg hc]
    unfold NoDupKeys at h ⊢
    rw [List.map_append]
    simp only [List.map_cons, List.map_nil]
    simp [List.nodup_append, h, hall]

theorem loadBatch_preserves_nodup (batch : List Concesion) :
    ∀ (t : List Concesion) (tag : Regimen),
      NoDupKeys t → NoDupKeys (loadBatch t batch tag) := by
  induction batch with
  | nil =>
      intro t tag h
      simpa [loadBatch]
  | cons c cs ih =>
      intro t tag h
      have heq : loadBatch t (c :: cs) tag =
          loadBatch (insert_on_conflict_do_nothing t { c with regimen_tipo := tag }) cs tag := by
        simp [loadBatch]
      rw [heq]
      exact ih _ tag (insert_preserves_nodup _ _ h)

theorem loadAll_nodup_aux (calls : List (List Concesion × Regimen)) :
    ∀ t : List Concesion, NoDupKeys t →
      NoDupKeys (calls.foldl (fun t bc => loadBatch t bc.1 bc.2) t) := by
  induction calls with
  | nil =>
      intro t h
      simpa
  | cons bc rest ih =>
      intro t h
      exact ih _ (loadBatch_preserves_nodup bc.1 t bc.2 h)

/-- Claim C1: across every sequence of `loadBatch` calls the stored table never
holds two rows with the same `(id_concesion, fecha_concesion, regimen_tipo)`
triple; loading the same record twice under one regime tag stores exactly one
row, while loading it under two different tags stores two rows — the insert
ignores unique-constraint conflicts on that triple. -/
theorem c1_dedup_unique_triple :
    (∀ calls : List (List Concesion × Regimen), NoDupKeys (loadAll calls)) ∧
    (∀ c : Concesion,
       (loadBatch (loadBatch [] [c] Regimen.ordinaria) [c] Regimen.ordinaria).length = 1) ∧
    (∀ c : Concesion,
       (loadBatch (loadBatch [] [c] Regimen.ordinaria) [c] Regimen.minimis).length = 2) := by
  refine ⟨fun calls => loadAll_nodup_aux calls [] (by simp [NoDupKeys]), ?_, ?_⟩
  · intro c
    simp [loadBatch, insert_on_conflict_do_nothing, dedupKey]
  · intro c
    simp [loadBatch, insert_on_conflict_do_nothing, dedupKey]

/-- Claim C2: `catalogos_obsoletos_para_ejercicio` returns true exactly when no
successful catalog sync exists or the year of the last successful sync is
strictly below the target year; in particular last sync 2024-06-01 is obsolete
for 2025, last sync 2025-01-15 is not obsolete for 2025, and last sync
2025-12-31 is not obsolete for 2024. -/
theorem c2_catalogos_obsoletos_iff :
    (∀ (ultima_sync : Option Date) (year : Nat),
       catalogos_obsoletos_para_ejercicio ultima_sync year = true ↔
         (ultima_sync = none ∨ ∃ d, ultima_sync = some d ∧ d.year < year)) ∧
    catalogos_obsoletos_para_ejercicio
      (some { year := 2024, month := 6, day := 1 }) 2025 = true ∧
    catalogos_obsoletos_para_ejercicio
      (some { year := 2025, month := 1, day := 15 }) 2025 = false ∧
    catalogos_obsoletos_para_ejercicio
      (some { year := 2025, month := 12, day := 31 }) 2024 = false := by
  refine ⟨?_, by decide, by decide, by decide⟩
  intro us year
  cases us with
  | none => simp [catalogos_obsoletos_para_ejercicio]
  | some d => simp [catalogos_obsoletos_para_ejercicio]

/-- Claim C6: when catalog validation/sync fails, the failure propagates before
any transactional load begins — the run writes zero canonical rows (the stored
table is exactly the one before the run) and the execution is marked failed. -/
theorem c6_ensure_fresh_fail_fast (ultima_sync : Option Date) (year : Nat)
    (syncResult : Except String (Option Date))
    (batches : List (List Concesion × Regimen)) (table : List Concesion)
    (msg : String)
    (h : validar_y_sincronizar_catalogos ultima_sync year syncResult =
      Except.error msg) :
    seed_ejercicio ultima_sync year syncResult batches table =
      (table, ExecStatus.failed) := by
  simp [seed_ejercicio, h]

/-- Claim C6 witness: a failing catalog sync for 2025 with a non-empty pending
batch leaves the (empty) store untouched and the run failed. -/
theorem c6_witness :
    seed_ejercicio none 2025 (Except.error "sync failed")
      [([{ id_concesion := "123", fecha_concesion := { year := 2025, month := 5, day := 15 },
           regimen_tipo := Regimen.ordinaria, importe := 1000, beneficiario := "ACME" }],
        Regimen.ordinaria)] [] = ([], ExecStatus.failed) :=
  c6_ensure_fresh_fail_fast none 2025 (Except.error "sync failed")
    [([{ id_concesion := "123", fecha_concesion := { year := 2025, month := 5, day := 15 },
         regimen_tipo := Regimen.ordinaria, importe := 1000, beneficiario := "ACME" }],
      Regimen.ordinaria)] [] "sync failed" rfl

theorem upsert_hasCode_mono (t : List CatalogRow) (row : CatalogRow) (c : String)
    (h : hasCode t c = true) : hasCode (upsert_if_absent t row).1 c = true := by
  unfold upsert_if_absent
  by_cases hc : t.any (fun r => decide (r.code = row.code))
  · simp [hc]
    exact h
  · rw [if_neg hc]
    unfold hasCode at h ⊢
    rw [List.any_append]
    simp [h]

theorem upsert_hasCode_self (t : List CatalogRow) (row : CatalogRow) :
    hasCode (upsert_if_absent t row).1 row.code = true := by
  unfold upsert_if_absent hasCode
  by_cases hc : t.any (fun r => decide (r.code = row.code))
  · simp [hc]
  · rw [if_neg hc]
    rw [List.any_append]
    simp

theorem sync_table_hasCode_mono (u : List CatalogRow) :
    ∀ (t : List CatalogRow) (c : String), hasCode t c = true →
      hasCode (sync_table t u).1 c = true := by
  induction u with
  | nil =>
      intro t c h
      simpa [sync_table]
  | cons r rest ih =>
      intro t c h
      simp only [sync_table]
      exact ih _ c (upsert_hasCode_mono t r c h)

theorem sync_table_hasCode_of_mem (u : List CatalogRow) :
    ∀ (t : List CatalogRow) (r : CatalogRow), r ∈ u →
      hasCode (sync_table t u).1 r.code = true := by
  induction u with
  | nil =>
      intro t r h
      cases h
  | cons x rest ih =>
      intro t r h
      rcases List.mem_cons.1 h with rfl | h'
      · simp only [sync_table]
        exact sync_table_hasCode_mono rest _ r.code (upsert_hasCode_self t r)
      · simp only [sync_table]
        exact ih _ r h'

theorem sync_table_fixed (u : List CatalogRow) :
    ∀ t : List CatalogRow, (∀ r ∈ u, hasCode t r.code = true) →
      sync_table t u = (t, 0) := by
  induction u with
  | nil =>
      intro t _
      rfl
  | cons r rest ih =>
      intro t h
      have hr := h r (List.mem_cons_self r rest)
      have hu : upsert_if_absent t r = (t, 0) := by
        unfold upsert_if_absent
        unfold hasCode at hr
        simp [hr]
      have htail : sync_table t rest = (t, 0) :=
        ih t (fun x hx => h x (List.mem_cons_of_mem r hx))
      simp [sync_table, hu, htail]

theorem sync_table_idem (t : List CatalogRow) (u : List CatalogRow) :
    sync_table (sync_table t u).1 u = ((sync_table t u).1, 0) :=
  sync_table_fixed u _ (fun r hr => sync_table_hasCode_of_mem u t r hr)

/-- Claim C7: the catalog sync is idempotent — re-running it against unchanged
upstream data inserts zero new rows (`newCount == 0`) and leaves every table
exactly as the first run left it, because each table's upsert is
insert-if-absent keyed by the natural code and never deletes or overwrites. -/
theorem c7_sync_catalogos_idempotent :
    ∀ state upstream : List (List CatalogRow),
      sync_catalogos (sync_catalogos state upstream).1 upstream =
        ((sync_catalogos state upstream).1, 0) := by
  intro state
  induction state with
  | nil =>
      intro upstream
      cases upstream <;> rfl
  | cons t ts ih =>
      intro upstream
      cases upstream with
      | nil => rfl
      | cons u us =>
          simp [sync_catalogos, sync_table_idem t u, ih us]

theorem applyMutation_running_mono (e : Execution) (m : Mutation)
    (h : e.status = ExecStatus.running)
    (h2 : (applyMutation e m).status = ExecStatus.running) :
    e.progress_percentage ≤ (applyMutation e m).progress_percentage := by
  cases m with
  | start => simp [applyMutation, h]
  | progress p => simp [applyMutation, h, Nat.le_max_left]
  | complete => simp [applyMutation, h] at h2
  | fail => simp [applyMutation, h] at h2
  | cancel => simp [applyMutation, h] at h2

theorem applyMutation_not_pending_not_running (e : Execution) (m : Mutation)
    (h1 : e.status ≠ ExecStatus.pending) (h2 : e.status ≠ ExecStatus.running) :
    applyMutation e m = e := by
  cases m <;> simp [applyMutation, h1, h2]

theorem applyMutations_terminal (ms : List Mutation) :
    ∀ e : Execution, e.status ≠ ExecStatus.pending →
      e.status ≠ ExecStatus.running → applyMutations e ms = e := by
  induction ms with
  | nil =>
      intro e _ _
      rfl
  | cons m rest ih =>
      intro e h1 h2
      have hstep : applyMutations e (m :: rest) =
          applyMutations (applyMutation e m) rest := rfl
      rw [hstep, applyMutation_not_pending_not_running e m h1 h2]
      exact ih e h1 h2

theorem applyMutation_from_running (e : Execution) (m : Mutation)
    (h : e.status = ExecStatus.running) :
    (applyMutation e m).status = ExecStatus.running ∨
    ((applyMutation e m).status ≠ ExecStatus.pending ∧
     (applyMutation e m).status ≠ ExecStatus.running) := by
  cases m <;> simp [applyMutation, h]

theorem applyMutations_running_mono (ms : List Mutation) :
    ∀ e : Execution, e.status = ExecStatus.running →
      (applyMutations e ms).status = ExecStatus.running →
      e.progress_percentage ≤ (applyMutations e ms).progress_percentage := by
  induction ms with
  | nil =>
      intro e _ _
      exact Nat.le_refl _
  | cons m rest ih =>
      intro e h hfin
      have hstep : applyMutations e (m :: rest) =
          applyMutations (applyMutation e m) rest := rfl
      rw [hstep] at hfin ⊢
      rcases applyMutation_from_running e m h with hr | ⟨hp, hr⟩
      · exact Nat.le_trans (applyMutation_running_mono e m h hr) (ih _ hr hfin)
      · rw [applyMutations_terminal rest _ hp hr] at hfin
        exact absurd hfin hr

theorem progressInv_step (e : Execution) (m : Mutation) (h : ProgressInv e) :
    ProgressInv (applyMutation e m) := by
  obtain ⟨s, pr⟩ := e
  cases s <;> cases m <;>
    simp [ProgressInv, applyMutation] at h ⊢ <;>
    omega

theorem progressInv_reachable_aux (ms : List Mutation) :
    ∀ e : Execution, ProgressInv e → ProgressInv (applyMutations e ms) := by
  induction ms with
  | nil =>
      intro e h
      exact h
  | cons m rest ih =>
      intro e h
      exact ih _ (progressInv_step e m h)

theorem progressInv_init :
    ProgressInv { status := ExecStatus.pending, progress_percentage := 0 } := by
  simp [ProgressInv]

/-- Claim C8: while an execution is `running`, progress_percentage never
decreases across any sequence of mutations (two successive reads during one
running span never observe a decrease), and the value 100 is reached exactly on
`completed`: a reachable state has progress 100 only if completed, and a
completed reachable state has progress 100. -/
theorem c8_progress_monotone_and_pinned :
    (∀ (e : Execution) (ms : List Mutation),
       e.status = ExecStatus.running →
       (applyMutations e ms).status = ExecStatus.running →
       e.progress_percentage ≤ (applyMutations e ms).progress_percentage) ∧
    (∀ ms : List Mutation,
       (reachable ms).progress_percentage = 100 →
       (reachable ms).status = ExecStatus.completed) ∧
    (∀ ms : List Mutation,
       (reachable ms).status = ExecStatus.completed →
       (reachable ms).progress_percentage = 100) := by
  refine ⟨fun e ms => applyMutations_running_mono ms e, ?_, ?_⟩
  · intro ms h100
    have hinv := progressInv_reachable_aux ms _ progressInv_init
    by_contra hne
    have h99 := hinv.2 hne
    simp only [reachable] at h100
    omega
  · intro ms hc
    exact (progressInv_reachable_aux ms _ progressInv_init).1 hc

/-- Claim C8 witness: from a running execution at progress 0, a progress
mutation keeps the status running and does not decrease the percentage; the
reachable run start-then-complete ends completed with progress pinned at
100. -/
theorem c8_witness :
    ({ status := ExecStatus.running, progress_percentage := 0 } :
        Execution).progress_percentage ≤
      (applyMutations { status := ExecStatus.running, progress_percentage := 0 }
        [Mutation.progress 50]).progress_percentage ∧
    (reachable [Mutation.start, Mutation.complete]).status =
      ExecStatus.completed ∧
    (reachable [Mutation.start, Mutation.complete]).progress_percentage = 100 :=
  ⟨c8_progress_monotone_and_pinned.1
      { status := ExecStatus.running, progress_percentage := 0 }
      [Mutation.progress 50] rfl rfl,
   c8_progress_monotone_and_pinned.2.1 [Mutation.start, Mutation.complete] rfl,
   c8_progress_monotone_and_pinned.2.2 [Mutation.start, Mutation.complete] rfl⟩
